import Mathlib

/-!
Shallow embedding of the ccx_runner log-parsing core (src/solver.rs) and the
consumer event application (src/app.rs, MainApp::update channel drain).

Strings are modelled as Lean Strings; the Rust string operations used by the
parser (trim, starts_with, split_whitespace, split('='), u32/f64 parsing) are
embedded as explicit functions over the character list, with ASCII whitespace
(the only whitespace that survives BufReader::lines on solver output).
Rust f64 values flow through the parser unmodified (parsed, stored, emitted),
so they are modelled exactly as rationals; the decimal/exponent grammar of
f64::from_str is embedded, with the non-finite literals (inf/nan) out of scope.
-/

namespace CcxRunner

/-- ASCII whitespace predicate, mirroring what char::is_whitespace sees in
solver log lines (space, tab, carriage return, line feed). -/
def isWs (c : Char) : Bool :=
  c == ' ' || c == '\t' || c == '\n' || c == '\r'

/-- Embeds Rust str::trim on the character list: drop whitespace from both ends. -/
def trimChars (cs : List Char) : List Char :=
  ((cs.dropWhile isWs).reverse.dropWhile isWs).reverse

/-- Embeds Rust str::trim. -/
def strTrim (s : String) : String :=
  ⟨trimChars s.data⟩

/-- Embeds Rust str::starts_with(pat). -/
def strStartsWith (s pat : String) : Bool :=
  pat.data.isPrefixOf s.data

/-- Helper for split_whitespace: accumulates the current token (reversed). -/
def splitWsGo : List Char → List Char → List (List Char)
  | [], acc => if acc.isEmpty then [] else [acc.reverse]
  | c :: cs, acc =>
    if isWs c then
      if acc.isEmpty then splitWsGo cs [] else acc.reverse :: splitWsGo cs []
    else
      splitWsGo cs (c :: acc)

/-- Embeds Rust str::split_whitespace: whitespace-separated tokens, no empties. -/
def splitWhitespace (s : String) : List (List Char) :=
  splitWsGo s.data []

/-- Embeds Rust str::split(sep) for a single char separator: segments between
separators, empties included (so a string without the separator yields one
segment, the whole string). -/
def splitOnChar (sep : Char) : List Char → List (List Char)
  | [] => [[]]
  | c :: cs =>
    if c == sep then [] :: splitOnChar sep cs
    else
      match splitOnChar sep cs with
      | [] => [[c]]
      | t :: ts => (c :: t) :: ts

/-- Numeric value of a digit list (most significant first). -/
def digitsVal (cs : List Char) : Nat :=
  cs.foldl (fun a c => a * 10 + (c.toNat - 48)) 0

/-- Embeds Rust str::parse::<u32>: optional leading plus sign, then one or
more ASCII digits, value must fit in 32 bits; anything else is an error. -/
def parseU32 (cs : List Char) : Option Nat :=
  let cs := match cs with
    | '+' :: rest => rest
    | other => other
  if cs.isEmpty then none
  else if cs.all Char.isDigit then
    let n := digitsVal cs
    if n < 2 ^ 32 then some n else none
  else none

/-- Consumes an optional sign character, returning (isNegative, rest). -/
def parseSign : List Char → Bool × List Char
  | '+' :: rest => (false, rest)
  | '-' :: rest => (true, rest)
  | cs => (false, cs)

/-- Splits a char list at the first exponent marker (e or E), if any. -/
def splitOnExp : List Char → List Char × Option (List Char)
  | [] => ([], none)
  | c :: rest =>
    if c == 'e' || c == 'E' then ([], some rest)
    else
      let (m, e) := splitOnExp rest
      (c :: m, e)

/-- Parses the mantissa of a float literal: digits, optionally with one
decimal point, needing at least one digit overall (1, 1., .5, 1.5). -/
def parseMantissa (cs : List Char) : Option ℚ :=
  let intPart := cs.takeWhile Char.isDigit
  match cs.dropWhile Char.isDigit with
  | [] => if intPart.isEmpty then none else some (digitsVal intPart)
  | '.' :: fracPart =>
    if fracPart.all Char.isDigit && !(intPart.isEmpty && fracPart.isEmpty) then
      some ((digitsVal intPart : ℚ) + (digitsVal fracPart : ℚ) / (10 : ℚ) ^ fracPart.length)
    else none
  | _ => none

/-- Parses the exponent part after e/E: optional sign, one or more digits. -/
def parseExpPart (cs : List Char) : Option ℤ :=
  let (eneg, ds) := parseSign cs
  if !ds.isEmpty && ds.all Char.isDigit then
    some (if eneg then -(digitsVal ds : ℤ) else (digitsVal ds : ℤ))
  else none

/-- Embeds Rust str::parse::<f64> on its finite-literal grammar:
optional sign, mantissa, optional e/E exponent; the parsed decimal value is
represented exactly as a rational. -/
def parseF64 (cs : List Char) : Option ℚ :=
  let (neg, cs) := parseSign cs
  let (mantPart, expPart) := splitOnExp cs
  match parseMantissa mantPart with
  | none => none
  | some m =>
    let signed : ℚ → Option ℚ := fun q => some (if neg then -q else q)
    match expPart with
    | none => signed m
    | some ecs =>
      match parseExpPart ecs with
      | none => none
      | some e => signed (m * (10 : ℚ) ^ e)

/-- Embeds struct StepInfo of src/solver.rs. -/
structure StepInfo where
  step : Nat
  increment : Nat
  attempt : Nat
  iterations : Nat
  total_time : ℚ
deriving Repr, DecidableEq

/-- Embeds struct ResidualData of src/solver.rs. -/
structure ResidualData where
  step : Nat
  total_iteration : Nat
  residual : ℚ
deriving Repr, DecidableEq

/-- Embeds enum SolverMessage of src/solver.rs. -/
inductive SolverMessage where
  | line (text : String)
  | newStepInfo (info : StepInfo)
  | updateStepInfo (info : StepInfo)
  | residual (data : ResidualData)
  | resetResiduals
deriving Repr, DecidableEq

/-- The reader thread's per-run mutable state in spawn_reader_thread:
current_step_info and total_iterations_for_residual. -/
structure ParserState where
  current_step_info : Option StepInfo
  total_iterations_for_residual : Nat
deriving Repr, DecidableEq

/-- Recognizes the RawLine event tag. -/
def SolverMessage.isLine : SolverMessage → Bool
  | .line _ => true
  | _ => false

/-- Recognizes the Residual event tag. -/
def SolverMessage.isResidual : SolverMessage → Bool
  | .residual _ => true
  | _ => false

/-- Embeds the per-line body of the reader loop in spawn_reader_thread
(src/solver.rs lines 60-137, the Ok(line) arm): classifies one line given
the current state, returning the next state and the messages sent for that
line, in send order (channel sends are modelled as always accepted). -/
def processLine (st : ParserState) (line : String) : ParserState × List SolverMessage :=
  if strStartsWith (strTrim line) "STEP" then
    match (splitWhitespace line).getLast? with
    | some step_str =>
      match parseU32 step_str with
      | some step_num =>
        let new_info : StepInfo :=
          { step := step_num, increment := 0, attempt := 0, iterations := 0, total_time := 0 }
        ({ st with current_step_info := some new_info },
         [.newStepInfo new_info, .line line])
      | none => (st, [.line line])
    | none => (st, [.line line])
  else
    match st.current_step_info with
    | some info =>
      if strStartsWith (strTrim line) "increment " then
        let parts := splitWhitespace line
        if 4 ≤ parts.length then
          match parts[1]?.bind parseU32, parts[3]?.bind parseU32 with
          | some inc, some att =>
            let info2 : StepInfo :=
              { info with increment := inc, attempt := att, iterations := 0 }
            ({ current_step_info := some info2, total_iterations_for_residual := 0 },
             [.resetResiduals, .updateStepInfo info2, .line line])
          | _, _ =>
            ({ st with total_iterations_for_residual := 0 },
             [.resetResiduals, .line line])
        else
          ({ st with total_iterations_for_residual := 0 },
           [.resetResiduals, .line line])
      else if strStartsWith (strTrim line) "iteration " then
        let info2 : StepInfo := { info with iterations := info.iterations + 1 }
        ({ st with current_step_info := some info2 },
         [.updateStepInfo info2, .line line])
      else if strStartsWith line " actual total time=" then
        match (splitOnChar '=' line.data)[1]? with
        | some val_str =>
          match parseF64 (trimChars val_str) with
          | some val =>
            let info2 : StepInfo := { info with total_time := val }
            ({ st with current_step_info := some info2 },
             [.updateStepInfo info2, .line line])
          | none => (st, [.line line])
        | none => (st, [.line line])
      else if strStartsWith (strTrim line) "largest residual force=" then
        match (splitOnChar '=' line.data)[1]? with
        | some val_str =>
          match (splitWsGo (trimChars val_str) []).head? with
          | some residual_str =>
            match parseF64 residual_str with
            | some residual =>
              let cnt := st.total_iterations_for_residual + 1
              let rd : ResidualData :=
                { step := info.step, total_iteration := cnt, residual := residual }
              ({ st with total_iterations_for_residual := cnt },
               [.residual rd, .line line])
            | none => (st, [.line line])
          | none => (st, [.line line])
        | none => (st, [.line line])
      else
        (st, [.line line])
    | none => (st, [.line line])

/-- The initial reader-thread state: no open record, residual counter zero. -/
def initialState : ParserState :=
  { current_step_info := none, total_iterations_for_residual := 0 }

/-- Embeds the whole reader loop of spawn_reader_thread over the line_result
sequence produced by BufReader::lines: an Err result logs and breaks, so it
ends the run and contributes no message; each Ok line is processed in turn. -/
def runReader (st : ParserState) : List (Except String String) → List SolverMessage
  | [] => []
  | .error _ :: _ => []
  | .ok line :: rest =>
    let out := processLine st line
    out.2 ++ runReader out.1 rest

/-- Convenience: run the parser over a list of successfully read lines. -/
def runLines (st : ParserState) : List String → List SolverMessage
  | [] => []
  | line :: rest =>
    let out := processLine st line
    out.2 ++ runLines out.1 rest

/-- Modelled from the spec, for comparison with the code: pattern 1 of
section 4.3 as the claim reads it, the trimmed line starting with the token
STEP followed by whitespace and an unsigned integer (token view: first
whitespace token is exactly STEP and the second parses as u32). -/
def specStepPattern (line : String) : Bool :=
  match splitWhitespace line with
  | s :: t :: _ => s == "STEP".data && (parseU32 t).isSome
  | _ => false

/-- Modelled from the spec, for comparison with the code: pattern a of
section 4.3 as claim C4 reads it, the untrimmed line starting with
"increment " and splitting into at least 4 whitespace-separated tokens. -/
def specIncrementPattern (line : String) : Bool :=
  strStartsWith line "increment " && decide (4 ≤ (splitWhitespace line).length)

/-- Pattern b of section 4.3: trimmed line starts with "iteration ". -/
def specIterationPattern (line : String) : Bool :=
  strStartsWith (strTrim line) "iteration "

/-- Pattern c of section 4.3: untrimmed line starts with " actual total time=". -/
def specTotalTimePattern (line : String) : Bool :=
  strStartsWith line " actual total time="

/-- Pattern d of section 4.3: trimmed line starts with "largest residual force=". -/
def specResidualPattern (line : String) : Bool :=
  strStartsWith (strTrim line) "largest residual force="

/-- Modelled from the spec, for comparison with the code: a line matches no
structured pattern in the sense of claim C4 (sub-patterns a-d only apply
while a record is open, per rule 2 of section 4.3). -/
def specMatchesNoPattern (recordOpen : Bool) (line : String) : Bool :=
  !(specStepPattern line) &&
    (!recordOpen ||
      (!(specIncrementPattern line) && !(specIterationPattern line) &&
        !(specTotalTimePattern line) && !(specResidualPattern line)))

/-- A line matches none of the structured branch conditions actually tested
by the code in spawn_reader_thread, given the current state: the trimmed line
does not start with "STEP", and, when a record is open, the trimmed line does
not start with "increment ", "iteration " or "largest residual force=" and
the untrimmed line does not start with " actual total time=". -/
def matchesNoCodePattern (st : ParserState) (line : String) : Prop :=
  strStartsWith (strTrim line) "STEP" = false ∧
    (st.current_step_info = none ∨
      (strStartsWith (strTrim line) "increment " = false ∧
        strStartsWith (strTrim line) "iteration " = false ∧
        strStartsWith line " actual total time=" = false ∧
        strStartsWith (strTrim line) "largest residual force=" = false))

instance (st : ParserState) (line : String) : Decidable (matchesNoCodePattern st line) := by
  unfold matchesNoCodePattern
  infer_instance

/-- The consumer-side display state touched by the channel drain in
MainApp::update (src/app.rs lines 82-112): transcript buffer, residual plot
series, step table. -/
structure AppState where
  solver_output_buffer : List String
  residual_data : List ResidualData
  step_info : List StepInfo
deriving Repr, DecidableEq

/-- Embeds the per-message arm of the channel drain in MainApp::update
(src/app.rs lines 86-98): how one received SolverMessage updates the display
state. -/
def applyMessage (app : AppState) (m : SolverMessage) : AppState :=
  match m with
  | .line l => { app with solver_output_buffer := app.solver_output_buffer ++ [l] }
  | .residual d => { app with residual_data := app.residual_data ++ [d] }
  | .resetResiduals => { app with residual_data := [] }
  | .newStepInfo info => { app with step_info := app.step_info ++ [info] }
  | .updateStepInfo info =>
    match app.step_info.getLast? with
    | some _ => { app with step_info := app.step_info.dropLast ++ [info] }
    | none => app

/-! ### Helper lemmas -/

theorem head_eq_of_isPrefixOf_cons {a : Char} {as cs : List Char}
    (h : List.isPrefixOf (a :: as) cs = true) : cs.head? = some a := by
  cases cs with
  | nil => simp [List.isPrefixOf] at h
  | cons c cs =>
    simp only [List.isPrefixOf, Bool.and_eq_true, beq_iff_eq] at h
    rw [List.head?_cons, h.1]

theorem isPrefixOf_false_of_head_ne {a b : Char} {as bs cs : List Char} (hab : a ≠ b)
    (h : List.isPrefixOf (a :: as) cs = true) : List.isPrefixOf (b :: bs) cs = false := by
  cases cs with
  | nil => simp [List.isPrefixOf] at h
  | cons c cs =>
    simp only [List.isPrefixOf, Bool.and_eq_true, beq_iff_eq] at h
    have hbc : (b == c) = false := by
      rw [beq_eq_false_iff_ne]
      intro hbc
      exact hab (h.1.trans hbc.symm)
    simp [List.isPrefixOf, hbc]

theorem rtrim_cons_of_not_ws {a : Char} (ha : isWs a = false) (l : List Char) :
    ((a :: l).reverse.dropWhile isWs).reverse = a :: (l.reverse.dropWhile isWs).reverse := by
  rw [List.reverse_cons, List.dropWhile_append]
  by_cases he : (List.dropWhile isWs l.reverse).isEmpty
  · rw [if_pos he]
    rw [List.isEmpty_iff] at he
    rw [he]
    simp [List.dropWhile_cons, ha]
  · rw [if_neg he, List.reverse_append]
    simp

theorem strTrim_data (s : String) : (strTrim s).data = trimChars s.data := rfl

theorem trim_head_of_total_time {line : String}
    (h : strStartsWith line " actual total time=" = true) :
    (strTrim line).data.head? = some 'a' := by
  unfold strStartsWith at h
  rw [List.isPrefixOf_iff_prefix] at h
  obtain ⟨suf, hsuf⟩ := h
  have hd : (" actual total time=" : String).data
      = ' ' :: 'a' :: ("ctual total time=" : String).data := rfl
  have hline : line.data = ' ' :: 'a' :: (("ctual total time=" : String).data ++ suf) := by
    rw [← hsuf, hd]
    rfl
  rw [strTrim_data, hline]
  unfold trimChars
  rw [List.dropWhile_cons, if_pos (show isWs ' ' = true from rfl)]
  rw [List.dropWhile_cons, if_neg (by simp [isWs])]
  rw [rtrim_cons_of_not_ws (show isWs 'a' = false from rfl)]
  rfl

theorem trim_head_of_residual {line : String}
    (h : strStartsWith (strTrim line) "largest residual force=" = true) :
    (strTrim line).data.head? = some 'l' := by
  unfold strStartsWith at h
  have hd : ("largest residual force=" : String).data
      = 'l' :: ("argest residual force=" : String).data := rfl
  rw [hd] at h
  exact head_eq_of_isPrefixOf_cons h

/-! ### Claim theorems -/

/-- C1: for every processed input line (with every channel send accepted),
exactly one RawLine event with the original untrimmed text is emitted for
that line, and it is the last event emitted for the line. -/
theorem rawline_unique_and_last (st : ParserState) (line : String) :
    ((processLine st line).2.filter SolverMessage.isLine) = [.line line] ∧
    (processLine st line).2.getLast? = some (.line line) := by
  unfold processLine
  by_cases h1 : strStartsWith (strTrim line) "STEP" = true
  · rw [if_pos h1]
    cases hl : (splitWhitespace line).getLast? with
    | none => simp [SolverMessage.isLine]
    | some t =>
      cases hp : parseU32 t with
      | none => simp [hp, SolverMessage.isLine]
      | some n => simp [hp, SolverMessage.isLine]
  · rw [if_neg h1]
    cases hop : st.current_step_info with
    | none => simp [SolverMessage.isLine]
    | some info =>
      simp only []
      by_cases h2 : strStartsWith (strTrim line) "increment " = true
      · rw [if_pos h2]
        by_cases hlen : 4 ≤ (splitWhitespace line).length
        · rw [if_pos hlen]
          cases hp1 : (splitWhitespace line)[1]?.bind parseU32 with
          | none => simp [hp1, SolverMessage.isLine]
          | some inc =>
            cases hp2 : (splitWhitespace line)[3]?.bind parseU32 with
            | none => simp [hp1, hp2, SolverMessage.isLine]
            | some att => simp [hp1, hp2, SolverMessage.isLine]
        · rw [if_neg hlen]
          simp [SolverMessage.isLine]
      · rw [if_neg h2]
        by_cases h3 : strStartsWith (strTrim line) "iteration " = true
        · rw [if_pos h3]
          simp [SolverMessage.isLine]
        · rw [if_neg h3]
          by_cases h4 : strStartsWith line " actual total time=" = true
          · rw [if_pos h4]
            cases hv : (splitOnChar '=' line.data)[1]? with
            | none => simp [SolverMessage.isLine]
            | some v =>
              cases hq : parseF64 (trimChars v) with
              | none => simp [hq, SolverMessage.isLine]
              | some q => simp [hq, SolverMessage.isLine]
          · rw [if_neg h4]
            by_cases h5 : strStartsWith (strTrim line) "largest residual force=" = true
            · rw [if_pos h5]
              cases hv : (splitOnChar '=' line.data)[1]? with
              | none => simp [SolverMessage.isLine]
              | some v =>
                cases ht : (splitWsGo (trimChars v) []).head? with
                | none => simp [ht, SolverMessage.isLine]
                | some tok =>
                  cases hq : parseF64 tok with
                  | none => simp [ht, hq, SolverMessage.isLine]
                  | some q => simp [ht, hq, SolverMessage.isLine]
            · rw [if_neg h5]
              simp [SolverMessage.isLine]

/-- C2 counterexample: on the line "STEP 3 5" (trimmed text starts with the
token STEP followed by whitespace and the unsigned integer 3), the code
emits NewStep with step 5 (the last whitespace token), not step 3 as the
claim requires. -/
theorem step_parses_last_token_cex :
    (processLine initialState "STEP 3 5").2
        = [.newStepInfo ⟨5, 0, 0, 0, 0⟩, .line "STEP 3 5"] ∧
    (processLine initialState "STEP 3 5").2
        ≠ [.newStepInfo ⟨3, 0, 0, 0, 0⟩, .line "STEP 3 5"] := by
  constructor
  · decide
  · decide

/-- C2 amended: for every line whose trimmed text starts with "STEP" and
whose last whitespace-separated token parses as an unsigned integer, the
parser parses that last token as the new step number, replaces current_step
with a fresh record, and emits NewStep with a snapshot of it followed by
RawLine. -/
theorem step_line_sets_step_from_last_token (st : ParserState) (line : String)
    (t : List Char) (n : Nat)
    (h1 : strStartsWith (strTrim line) "STEP" = true)
    (h2 : (splitWhitespace line).getLast? = some t)
    (h3 : parseU32 t = some n) :
    processLine st line =
      ({ st with current_step_info := some ⟨n, 0, 0, 0, 0⟩ },
       [.newStepInfo ⟨n, 0, 0, 0, 0⟩, .line line]) := by
  unfold processLine
  rw [if_pos h1]
  simp [h2, h3]

/-- C2 witness: input "STEP 3" with no prior open record emits
NewStep with step 3 and zeroed fields, then RawLine("STEP 3"). -/
theorem step_line_sets_step_witness :
    processLine initialState "STEP 3" =
      ({ initialState with current_step_info := some ⟨3, 0, 0, 0, 0⟩ },
       [.newStepInfo ⟨3, 0, 0, 0, 0⟩, .line "STEP 3"]) :=
  step_line_sets_step_from_last_token initialState "STEP 3" ['3'] 3
    (by decide) (by decide) (by decide)

/-- C6: applying UpdateStep with a non-empty step table replaces the
positionally last row with the event snapshot (regardless of whether that
row's step number matches the event's) and changes nothing else. -/
theorem update_step_replaces_last_row (app : AppState) (info last : StepInfo)
    (h : app.step_info.getLast? = some last) :
    applyMessage app (.updateStepInfo info)
      = { app with step_info := app.step_info.dropLast ++ [info] } := by
  unfold applyMessage
  rw [h]

/-- C6 witness: with a one-row table whose row has step 1, an UpdateStep
event with step 2 (a differing step number) still replaces that row. -/
theorem update_step_replaces_last_row_witness :
    (⟨1, 0, 0, 0, 0⟩ : StepInfo).step ≠ (⟨2, 9, 9, 9, 0⟩ : StepInfo).step ∧
    applyMessage ⟨["a"], [], [⟨1, 0, 0, 0, 0⟩]⟩ (.updateStepInfo ⟨2, 9, 9, 9, 0⟩)
      = ⟨["a"], [], [⟨2, 9, 9, 9, 0⟩]⟩ :=
  ⟨by decide,
   update_step_replaces_last_row ⟨["a"], [], [⟨1, 0, 0, 0, 0⟩]⟩ ⟨2, 9, 9, 9, 0⟩
     ⟨1, 0, 0, 0, 0⟩ rfl⟩

/-- C7: a read failure mid-sequence ends the run: the events are exactly
those of the successfully read prefix, no error value reaches the parser or
consumer (the event type has no error variant), and nothing is emitted for
the failed read or afterwards. -/
theorem read_error_ends_run (st : ParserState) (oks : List String) (e : String)
    (tail : List (Except String String)) :
    runReader st (oks.map Except.ok ++ Except.error e :: tail) = runLines st oks := by
  induction oks generalizing st with
  | nil => simp [runReader, runLines]
  | cons l ls ih => simp [runReader, runLines, ih]

/-- C8: applying UpdateStep with an empty step table is a total, silent
no-op on the whole consumer state. -/
theorem update_step_empty_table_noop (app : AppState) (info : StepInfo)
    (h : app.step_info = []) :
    applyMessage app (.updateStepInfo info) = app := by
  unfold applyMessage
  rw [h]
  rfl

/-- C8 witness: UpdateStep on a consumer state with an empty table leaves
the state unchanged. -/
theorem update_step_empty_table_noop_witness :
    applyMessage ⟨["x"], [⟨1, 1, 1⟩], []⟩ (.updateStepInfo ⟨2, 9, 9, 9, 0⟩)
      = ⟨["x"], [⟨1, 1, 1⟩], []⟩ :=
  update_step_empty_table_noop ⟨["x"], [⟨1, 1, 1⟩], []⟩ ⟨2, 9, 9, 9, 0⟩ rfl

/-- C9: processing a line whose trimmed text starts with "STEP" leaves the
residual counter unchanged, whether or not a NewStep is emitted; so the
sample_index sequence continues across step boundaries and is zeroed only by
the increment rule. -/
theorem step_line_preserves_residual_counter (st : ParserState) (line : String)
    (h : strStartsWith (strTrim line) "STEP" = true) :
    (processLine st line).1.total_iterations_for_residual
      = st.total_iterations_for_residual := by
  unfold processLine
  rw [if_pos h]
  cases hl : (splitWhitespace line).getLast? with
  | none => rfl
  | some t =>
    cases hp : parseU32 t with
    | none => simp [hp]
    | some n => simp [hp]

/-- C9 witness: a STEP line processed with residual counter 7 leaves the
counter at 7. -/
theorem step_line_preserves_residual_counter_witness :
    (processLine ⟨some ⟨1, 1, 1, 1, 0⟩, 7⟩ "STEP 2").1.total_iterations_for_residual = 7 :=
  step_line_preserves_residual_counter ⟨some ⟨1, 1, 1, 1, 0⟩, 7⟩ "STEP 2" (by decide)

/-- C10: a line whose trimmed text starts with "STEP" but whose step-number
token (the last whitespace token, the one the code parses) fails to parse as
an unsigned integer leaves the whole parser state unchanged and emits only
RawLine: no NewStep, no replacement of any open record. -/
theorem step_parse_failure_leaves_state (st : ParserState) (line : String)
    (t : List Char)
    (h1 : strStartsWith (strTrim line) "STEP" = true)
    (h2 : (splitWhitespace line).getLast? = some t)
    (h3 : parseU32 t = none) :
    processLine st line = (st, [.line line]) := by
  unfold processLine
  rw [if_pos h1]
  simp [h2, h3]

/-- C10 witness: the line "STEP x" with an open record and residual counter
7 emits only RawLine and leaves the state untouched. -/
theorem step_parse_failure_leaves_state_witness :
    processLine ⟨some ⟨1, 2, 3, 4, 5⟩, 7⟩ "STEP x"
      = (⟨some ⟨1, 2, 3, 4, 5⟩, 7⟩, [.line "STEP x"]) :=
  step_parse_failure_leaves_state ⟨some ⟨1, 2, 3, 4, 5⟩, 7⟩ "STEP x" ['x']
    (by decide) (by decide) (by decide)

theorem not_STEP_of_increment {line : String}
    (h : strStartsWith (strTrim line) "increment " = true) :
    strStartsWith (strTrim line) "STEP" = false := by
  unfold strStartsWith at h ⊢
  have hd1 : ("increment " : String).data = 'i' :: ("ncrement " : String).data := rfl
  have hd2 : ("STEP" : String).data = 'S' :: ("TEP" : String).data := rfl
  rw [hd1] at h
  rw [hd2]
  exact isPrefixOf_false_of_head_ne (by decide) h

theorem residual_not_STEP {line : String}
    (h : strStartsWith (strTrim line) "largest residual force=" = true) :
    strStartsWith (strTrim line) "STEP" = false := by
  unfold strStartsWith at h ⊢
  have hd1 : ("largest residual force=" : String).data
      = 'l' :: ("argest residual force=" : String).data := rfl
  have hd2 : ("STEP" : String).data = 'S' :: ("TEP" : String).data := rfl
  rw [hd1] at h
  rw [hd2]
  exact isPrefixOf_false_of_head_ne (by decide) h

theorem residual_not_increment {line : String}
    (h : strStartsWith (strTrim line) "largest residual force=" = true) :
    strStartsWith (strTrim line) "increment " = false := by
  unfold strStartsWith at h ⊢
  have hd1 : ("largest residual force=" : String).data
      = 'l' :: ("argest residual force=" : String).data := rfl
  have hd2 : ("increment " : String).data = 'i' :: ("ncrement " : String).data := rfl
  rw [hd1] at h
  rw [hd2]
  exact isPrefixOf_false_of_head_ne (by decide) h

theorem residual_not_iteration {line : String}
    (h : strStartsWith (strTrim line) "largest residual force=" = true) :
    strStartsWith (strTrim line) "iteration " = false := by
  unfold strStartsWith at h ⊢
  have hd1 : ("largest residual force=" : String).data
      = 'l' :: ("argest residual force=" : String).data := rfl
  have hd2 : ("iteration " : String).data = 'i' :: ("teration " : String).data := rfl
  rw [hd1] at h
  rw [hd2]
  exact isPrefixOf_false_of_head_ne (by decide) h

theorem residual_not_total_time {line : String}
    (h : strStartsWith (strTrim line) "largest residual force=" = true) :
    strStartsWith line " actual total time=" = false := by
  cases hat : strStartsWith line " actual total time=" with
  | false => rfl
  | true =>
    exfalso
    have ha := trim_head_of_total_time hat
    have hl := trim_head_of_residual h
    rw [ha] at hl
    exact absurd hl (by decide)

/-- C3: with a record open, a line whose trimmed text starts with
"increment " and has at least 4 whitespace tokens zeroes the residual
counter and emits ResetResiduals first, unconditionally; if parsing
token 1 or token 3 as u32 fails the record is unchanged and no UpdateStep
is emitted; on success increment, attempt and iterations are set and
UpdateStep is emitted with those values, followed by RawLine. -/
theorem increment_line_reset_then_update (st : ParserState) (info : StepInfo)
    (line : String)
    (hop : st.current_step_info = some info)
    (hinc : strStartsWith (strTrim line) "increment " = true)
    (hlen : 4 ≤ (splitWhitespace line).length) :
    (processLine st line).1.total_iterations_for_residual = 0 ∧
    (processLine st line).2.head? = some SolverMessage.resetResiduals ∧
    (∀ inc att, (splitWhitespace line)[1]?.bind parseU32 = some inc →
        (splitWhitespace line)[3]?.bind parseU32 = some att →
        processLine st line =
          ({ current_step_info :=
               some { info with increment := inc, attempt := att, iterations := 0 },
             total_iterations_for_residual := 0 },
           [.resetResiduals,
            .updateStepInfo { info with increment := inc, attempt := att, iterations := 0 },
            .line line])) ∧
    (((splitWhitespace line)[1]?.bind parseU32 = none ∨
        (splitWhitespace line)[3]?.bind parseU32 = none) →
      processLine st line =
        ({ st with total_iterations_for_residual := 0 },
         [.resetResiduals, .line line])) := by
  have hstep := not_STEP_of_increment hinc
  unfold processLine
  rw [if_neg (by simp [hstep])]
  rw [hop]
  simp only []
  rw [if_pos hinc, if_pos hlen]
  refine ⟨?_, ?_, ?_, ?_⟩
  · cases hp1 : (splitWhitespace line)[1]?.bind parseU32 with
    | none => simp [hp1]
    | some inc =>
      cases hp2 : (splitWhitespace line)[3]?.bind parseU32 with
      | none => simp [hp1, hp2]
      | some att => simp [hp1, hp2]
  · cases hp1 : (splitWhitespace line)[1]?.bind parseU32 with
    | none => simp [hp1]
    | some inc =>
      cases hp2 : (splitWhitespace line)[3]?.bind parseU32 with
      | none => simp [hp1, hp2]
      | some att => simp [hp1, hp2]
  · intro inc att hp1 hp2
    simp [hp1, hp2]
  · intro hfail
    cases hfail with
    | inl hp1 => simp [hp1]
    | inr hp2 =>
      cases hp1 : (splitWhitespace line)[1]?.bind parseU32 with
      | none => simp [hp1, hp2]
      | some inc => simp [hp1, hp2]

/-- C3 witness: with an open record {step 1} and residual counter 5, the
line "increment 7 of 2" emits ResetResiduals, then UpdateStep with
increment 7, attempt 2, iterations 0, then RawLine, and zeroes the
counter. -/
theorem increment_line_reset_then_update_witness :
    (processLine ⟨some ⟨1, 0, 0, 0, 0⟩, 5⟩ "increment 7 of 2").2
      = [.resetResiduals, .updateStepInfo ⟨1, 7, 2, 0, 0⟩, .line "increment 7 of 2"] ∧
    (processLine ⟨some ⟨1, 0, 0, 0, 0⟩, 5⟩
        "increment 7 of 2").1.total_iterations_for_residual = 0 := by
  have h := increment_line_reset_then_update ⟨some ⟨1, 0, 0, 0, 0⟩, 5⟩ ⟨1, 0, 0, 0, 0⟩
    "increment 7 of 2" rfl (by decide) (by decide)
  have hs := h.2.2.1 7 2 (by decide) (by decide)
  exact ⟨by rw [hs], h.1⟩

/-- C4 counterexample: three lines that match none of the structured
patterns as the claim defines them (spec section 4.3, increment pattern on
the untrimmed line with at least 4 tokens, STEP pattern as the token STEP
followed by an integer) yet receive structured treatment from the code:
a leading-whitespace increment line fires the increment branch, a line with
fewer than 4 tokens still fires ResetResiduals, and a line whose first
token is STEPX fires NewStep. -/
theorem unmatched_line_only_rawline_cex :
    (specMatchesNoPattern true "  increment 7 of 2" = true ∧
      (processLine ⟨some ⟨1, 0, 0, 0, 0⟩, 3⟩ "  increment 7 of 2").2
        ≠ [.line "  increment 7 of 2"]) ∧
    (specMatchesNoPattern true "increment 7" = true ∧
      (processLine ⟨some ⟨1, 0, 0, 0, 0⟩, 3⟩ "increment 7").2
        ≠ [.line "increment 7"]) ∧
    (specMatchesNoPattern false "STEPX 3" = true ∧
      (processLine initialState "STEPX 3").2 ≠ [.line "STEPX 3"]) := by
  refine ⟨⟨by decide, by decide⟩, ⟨by decide, by decide⟩, ⟨by decide, by decide⟩⟩

/-- C4 amended: for every input line that, given the current state, matches
none of the structured branch conditions as the code tests them — the STEP
pattern being a prefix test of "STEP" on the trimmed line, the increment
pattern a prefix test of "increment " on the trimmed line with no minimum
token count, the total-time pattern the exact untrimmed prefix
" actual total time=", and the iteration and residual patterns prefix tests
on the trimmed line — processing emits exactly one RawLine event and no
structured event, and leaves the parser state unchanged. -/
theorem unmatched_line_only_rawline (st : ParserState) (line : String)
    (h : matchesNoCodePattern st line) :
    processLine st line = (st, [.line line]) := by
  obtain ⟨h1, h2⟩ := h
  unfold processLine
  rw [if_neg (by simp [h1])]
  cases hop : st.current_step_info with
  | none => rfl
  | some info =>
    cases h2 with
    | inl hnone => rw [hop] at hnone; exact absurd hnone (by simp)
    | inr hpats =>
      obtain ⟨hi, hit, ht, hr⟩ := hpats
      simp only []
      rw [if_neg (by simp [hi]), if_neg (by simp [hit]), if_neg (by simp [ht]),
        if_neg (by simp [hr])]

/-- C4 witness: the line " Job finished" with an open record matches no
structured branch condition and yields only RawLine, with the state
untouched. -/
theorem unmatched_line_only_rawline_witness :
    matchesNoCodePattern ⟨some ⟨1, 2, 3, 4, 5⟩, 6⟩ " Job finished" ∧
    processLine ⟨some ⟨1, 2, 3, 4, 5⟩, 6⟩ " Job finished"
      = (⟨some ⟨1, 2, 3, 4, 5⟩, 6⟩, [.line " Job finished"]) :=
  ⟨by decide,
   unmatched_line_only_rawline ⟨some ⟨1, 2, 3, 4, 5⟩, 6⟩ " Job finished" (by decide)⟩

/-- C5: with a record open, a line whose trimmed text starts with
"largest residual force=" and whose post-equals segment has a first
whitespace token parsing as a float increments the residual counter and
emits Residual{step: current step, sample_index: incremented counter,
residual: parsed value} and then RawLine, with no UpdateStep. -/
theorem residual_line_emits_sample (st : ParserState) (info : StepInfo)
    (line : String) (v tok : List Char) (q : ℚ)
    (hop : st.current_step_info = some info)
    (hres : strStartsWith (strTrim line) "largest residual force=" = true)
    (hv : (splitOnChar '=' line.data)[1]? = some v)
    (htok : (splitWsGo (trimChars v) []).head? = some tok)
    (hq : parseF64 tok = some q) :
    processLine st line =
      ({ st with total_iterations_for_residual := st.total_iterations_for_residual + 1 },
       [.residual ⟨info.step, st.total_iterations_for_residual + 1, q⟩, .line line]) := by
  have h1 := residual_not_STEP hres
  have h2 := residual_not_increment hres
  have h3 := residual_not_iteration hres
  have h4 := residual_not_total_time hres
  unfold processLine
  rw [if_neg (by simp [h1])]
  rw [hop]
  simp only []
  rw [if_neg (by simp [h2]), if_neg (by simp [h3]), if_neg (by simp [h4]), if_pos hres]
  simp [hv, htok, hq]

/-- C5 witness: the spec's five-line sequence, stepped line by line, yields
the residual samples (step 1, index 1, 0.005) and (step 1, index 2, 0.002),
in that order; the two residual lines are instances of the residual rule
applied at the state reached at that point. -/
theorem residual_line_emits_sample_witness :
    processLine initialState "STEP 1"
      = (⟨some ⟨1, 0, 0, 0, 0⟩, 0⟩, [.newStepInfo ⟨1, 0, 0, 0, 0⟩, .line "STEP 1"]) ∧
    processLine ⟨some ⟨1, 0, 0, 0, 0⟩, 0⟩ "increment 1 x 1"
      = (⟨some ⟨1, 1, 1, 0, 0⟩, 0⟩,
         [.resetResiduals, .updateStepInfo ⟨1, 1, 1, 0, 0⟩, .line "increment 1 x 1"]) ∧
    processLine ⟨some ⟨1, 1, 1, 0, 0⟩, 0⟩ "iteration 1"
      = (⟨some ⟨1, 1, 1, 1, 0⟩, 0⟩,
         [.updateStepInfo ⟨1, 1, 1, 1, 0⟩, .line "iteration 1"]) ∧
    processLine ⟨some ⟨1, 1, 1, 1, 0⟩, 0⟩ "largest residual force= 0.005 N"
      = (⟨some ⟨1, 1, 1, 1, 0⟩, 1⟩,
         [.residual ⟨1, 1, 1/200⟩, .line "largest residual force= 0.005 N"]) ∧
    processLine ⟨some ⟨1, 1, 1, 1, 0⟩, 1⟩ "largest residual force= 0.002 N"
      = (⟨some ⟨1, 1, 1, 1, 0⟩, 2⟩,
         [.residual ⟨1, 2, 1/500⟩, .line "largest residual force= 0.002 N"]) := by
  refine ⟨by decide, by decide, by decide, ?_, ?_⟩
  · have hq : parseF64 ['0', '.', '0', '0', '5'] = some (1/200) := by
      have h0 : parseF64 ['0', '.', '0', '0', '5']
          = some ((digitsVal ['0'] : ℚ)
              + (digitsVal ['0', '0', '5'] : ℚ) / (10 : ℚ) ^ (3 : Nat)) := rfl
      have h1 : digitsVal ['0'] = 0 := by decide
      have h2 : digitsVal ['0', '0', '5'] = 5 := by decide
      rw [h0, h1, h2]
      norm_num
    exact residual_line_emits_sample ⟨some ⟨1, 1, 1, 1, 0⟩, 0⟩ ⟨1, 1, 1, 1, 0⟩
      "largest residual force= 0.005 N" (" 0.005 N" : String).data
      ['0', '.', '0', '0', '5'] (1/200) rfl (by decide) (by decide) (by decide) hq
  · have hq : parseF64 ['0', '.', '0', '0', '2'] = some (1/500) := by
      have h0 : parseF64 ['0', '.', '0', '0', '2']
          = some ((digitsVal ['0'] : ℚ)
              + (digitsVal ['0', '0', '2'] : ℚ) / (10 : ℚ) ^ (3 : Nat)) := rfl
      have h1 : digitsVal ['0'] = 0 := by decide
      have h2 : digitsVal ['0', '0', '2'] = 2 := by decide
      rw [h0, h1, h2]
      norm_num
    exact residual_line_emits_sample ⟨some ⟨1, 1, 1, 1, 0⟩, 1⟩ ⟨1, 1, 1, 1, 0⟩
      "largest residual force= 0.002 N" (" 0.002 N" : String).data
      ['0', '.', '0', '0', '2'] (1/500) rfl (by decide) (by decide) (by decide) hq

end CcxRunner
